import Mathlib

/-!
Shallow embedding of `src/render/stream.rs` from the `aichat-thinkless`
repository: the live terminal renderer that batches SSE text deltas,
filters `<think>…</think>` reasoning spans per a configurable mode, and
incrementally redraws the trailing unfinalized line.

Strings are modelled as `List Char` (the Rust code indexes ASCII tag
literals, so char indices and byte indices agree on every input the
claims touch).  The opaque collaborators (`MarkdownRender.render`,
`MarkdownRender.render_line`) are passed in as function parameters; the
terminal is modelled as a trace of write events.
-/

/-- `SseEvent` from the stream module: a text delta or the terminal `Done`
marker (Rust `SseEvent::Text(String) | SseEvent::Done`). -/
inductive SseEvent : Type
  | Text (s : List Char)
  | Done
deriving DecidableEq, Repr

/-- `ThinkTagMode` from `crate::config`: the four span-disposition policies
read fresh from shared configuration on every frame. -/
inductive ThinkTagMode : Type
  | Default
  | Hide
  | Replace
  | Show
deriving DecidableEq, Repr

/-- One terminal write event queued by the stream code.
`print s` is `style::Print(s)` of already-rendered text; `dim s` is
`style::Print(dimmed_text(s).replace('\n', "\r\n"))` — the payload kept
here is the content handed to `dimmed_text`, the dimming and the
`\n`-to-`\r\n` normalization being the same deterministic pipeline at
every `dim` site; `blockLine s` is one `print_block` line
(`Print(line); Print("\n"); MoveLeft(columns)`); the rest mirror the
crossterm cursor/terminal commands and `flush`, plus the Replace-mode
"Thinking" spinner side effects. -/
inductive WEv : Type
  | print (s : List Char)
  | dim (s : List Char)
  | blockLine (s : List Char) (columns : Nat)
  | moveTo (c r : Nat)
  | scrollUp (n : Nat)
  | clearDown
  | spinStartThinking
  | spinStop
  | flush
deriving DecidableEq, Repr

/-- The mutable state of `markdown_stream_inner`: the unfinalized trailing
line `buffer`, the rows it occupied when last drawn, whether a reasoning
block is open across frames, and whether the Replace-mode "Thinking"
spinner handle is live. -/
structure RState : Type where
  buffer : List Char
  bufferRows : Nat
  inThink : Bool
  thinkSpin : Bool
deriving DecidableEq, Repr

/-- The opening tag literal `"<think>"` (7 chars). -/
def thinkOpen : List Char := String.toList "<think>"

/-- The closing tag literal `"</think>"` (8 chars). -/
def thinkClose : List Char := String.toList "</think>"

/-- Boolean prefix test (Rust's pattern match at the head of a slice). -/
def leadsWith : List Char → List Char → Bool
  | [], _ => true
  | _ :: _, [] => false
  | p :: ps, c :: cs => p = c && leadsWith ps cs

/-- `str::find(pattern)`: index of the first occurrence of `pat` in `s`,
`none` when absent (char index; equal to the Rust byte index on the ASCII
patterns the code searches for). -/
def findSub (pat : List Char) : List Char → Option Nat
  | [] => if leadsWith pat [] then some 0 else none
  | c :: rest =>
      if leadsWith pat (c :: rest) then some 0
      else (findSub pat rest).map (· + 1)

/-- `text.replace('\t', "    ")` — the tab-width hack applied to every
incoming frame before filtering. -/
def expandTabs : List Char → List Char
  | [] => []
  | c :: rest =>
      (if c = '\t' then [' ', ' ', ' ', ' '] else [c]) ++ expandTabs rest

/-- `text.split('\n')` — like Rust's `str::split`, an empty input yields
one empty piece, and a trailing separator yields a trailing empty piece. -/
def splitOnNl : List Char → List (List Char)
  | [] => [[]]
  | c :: rest =>
      if c = '\n' then [] :: splitOnNl rest
      else
        match splitOnNl rest with
        | h :: t2 => (c :: h) :: t2
        | [] => [[c]]

/-- `split_line_tail` from stream.rs: `rsplit_once('\n')`, returning
`("", s)` when there is no line break and otherwise the head before and
the tail after the final line break. -/
def split_line_tail : List Char → List Char × List Char
  | [] => ([], [])
  | c :: rest =>
      if '\n' ∈ rest then
        let (h, t) := split_line_tail rest
        (c :: h, t)
      else if c = '\n' then ([], rest)
      else ([], c :: rest)

/-- Modelled from the spec: "display width accounts for variable-width
characters, not raw length" (`textwrap::core::display_width`, an external
crate).  ASCII characters occupy one column, other characters two. -/
def charWidth (c : Char) : Nat := if c.toNat < 128 then 1 else 2

/-- Modelled from the spec: display width of a string, the sum of its
characters' widths. -/
def displayWidth (s : List Char) : Nat := (s.map charWidth).sum

/-- Rust `u16::div_ceil`: `a / b` plus one more when the division leaves a
remainder. -/
def divCeil (a b : Nat) : Nat := a / b + (if a % b = 0 then 0 else 1)

/-- `need_rows` from stream.rs:
`display_width(text).max(1) as u16` (the `as u16` truncates modulo
`2^16`) then `div_ceil(columns)`. -/
def need_rows (text : List Char) (columns : Nat) : Nat :=
  divCeil (max (displayWidth text) 1 % 65536) columns

/-- The kitty duplicate-line correction (stream.rs lines 287–290): after
querying the cursor, decrement `row` when `col == 0 && row > 0 &&
display_width(buffer) == columns`. -/
def correct_row (col row : Nat) (buffer : List Char) (columns : Nat) : Nat :=
  if col = 0 ∧ 0 < row ∧ displayWidth buffer = columns then row - 1 else row

/-- `print_block` from stream.rs: per `'\n'`-separated line, queue the
line, a line break and a `MoveLeft(columns)`; return the number of lines
emitted. -/
def print_block (text : List Char) (columns : Nat) : List WEv × Nat :=
  ((splitOnNl text).map (fun l => WEv.blockLine l columns), (splitOnNl text).length)

/-- `gather_events`' receive loop: drain the already-arrived events in
order, collecting text payloads until a `Done` marker (which stops the
loop immediately) or until the queue is exhausted (channel closed or
timeout). -/
def gatherLoop : List SseEvent → List (List Char) × Bool
  | [] => ([], false)
  | SseEvent.Text v :: rest =>
      let (ts, d) := gatherLoop rest
      (v :: ts, d)
  | SseEvent.Done :: _ => ([], true)

/-- `gather_events` from stream.rs, as a function of the events the
select-loop receives during one batching window: at most one coalesced
`Text` (the join of all collected deltas) optionally followed by `Done`. -/
def gather_events (arrived : List SseEvent) : List SseEvent :=
  let (texts, done) := gatherLoop arrived
  (if texts = [] then [] else [SseEvent.Text texts.flatten])
    ++ (if done then [SseEvent.Done] else [])

/-- Spec-side description of the deltas "received during the window": the
payloads of the text events that arrive strictly before the first `Done`
marker (the receive loop stops at `Done`). -/
def windowTexts : List SseEvent → List (List Char)
  | [] => []
  | SseEvent.Text s :: rest => s :: windowTexts rest
  | SseEvent.Done :: _ => []

/-- The Hide-mode `while let Some(start) = text.find("<think>")` loop
(stream.rs lines 135–144): a closed span is excised and scanning restarts
from the front of the shortened text; an unclosed opening truncates the
text there and opens the block.  `fuel` bounds the iterations; every call
passes the text's length, which suffices because each excision removes at
least the eight closing-tag characters. -/
def hideLoop : Nat → List Char → List Char × Bool
  | 0, t => (t, false)
  | fuel + 1, t =>
      match findSub thinkOpen t with
      | none => (t, false)
      | some s =>
          match findSub thinkClose (List.drop s t) with
          | some r => hideLoop fuel (List.take s t ++ List.drop (s + r + 8) t)
          | none => (List.take s t, true)

/-- The Hide-mode branch of `markdown_stream_inner` (lines 126–144): the
in-block preamble (consume up to `</think>`, or `continue` with nothing)
followed by the span-excision loop.  Returns the final text passed on to
the renderer and the updated `in_think_block`. -/
def hideFilter (t : List Char) (inThink : Bool) : List Char × Bool :=
  if inThink then
    match findSub thinkClose t with
    | some p => hideLoop (List.drop (p + 8) t).length (List.drop (p + 8) t)
    | none => ([], true)
  else hideLoop t.length t

/-- The Replace-mode `while` loop (lines 115–125): textually the Hide loop
plus spawning the "Thinking" spinner when an unclosed opening is found.
Returns the text, the `in_think_block` flag, and the spinner side
effects. -/
def replaceLoop : Nat → List Char → List Char × Bool × List WEv
  | 0, t => (t, false, [])
  | fuel + 1, t =>
      match findSub thinkOpen t with
      | none => (t, false, [])
      | some s =>
          match findSub thinkClose (List.drop s t) with
          | some r => replaceLoop fuel (List.take s t ++ List.drop (s + r + 8) t)
          | none => (List.take s t, true, [WEv.spinStartThinking])

/-- The Replace-mode branch (lines 103–125): in-block preamble (stopping
the "Thinking" spinner when the block closes) followed by the loop.
Returns text, `in_think_block`, spinner events and the new spinner-handle
state. -/
def replaceFilter (t : List Char) (inThink spin : Bool) :
    List Char × Bool × List WEv × Bool :=
  if inThink then
    match findSub thinkClose t with
    | some p =>
        let stopEvs := if spin then [WEv.spinStop] else []
        let t1 := List.drop (p + 8) t
        let (t2, b2, evs2) := replaceLoop t1.length t1
        (t2, b2, stopEvs ++ evs2, b2)
    | none => ([], true, [], spin)
  else
    let (t2, b2, evs2) := replaceLoop t.length t
    (t2, b2, evs2, if b2 then true else spin)

/-- The Show-mode `while` loop (lines 161–210).  A closed span prints —
after flushing a non-empty `buffer` through `render_line`, but only when
the text before the opening tag is non-empty — the pre-text and then the
dimmed span *content* (tags stripped); an unclosed opening flushes a
non-empty `buffer` unconditionally, prints the pre-text, dims the rest
and opens the block.  Returns (events, remaining text, buffer,
buffer_rows, in_think_block-set). -/
def showLoop (rl : List Char → List Char) :
    Nat → List Char → List Char → Nat →
      List WEv × List Char × List Char × Nat × Bool
  | 0, t, buf, br => ([], t, buf, br, false)
  | fuel + 1, t, buf, br =>
      match findSub thinkOpen t with
      | none => ([], t, buf, br, false)
      | some s =>
          match findSub thinkClose (List.drop s t) with
          | some r =>
              let pre := List.take s t
              let (evs1, buf1, br1) :=
                if pre = [] then ([], buf, br)
                else if buf = [] then ([WEv.print pre], buf, br)
                else ([WEv.print (rl buf), WEv.print pre], [], 1)
              let content := List.take (r - 7) (List.drop (s + 7) t)
              let t2 := List.drop (s + r + 8) t
              let (evs2, t3, buf2, br2, it) := showLoop rl fuel t2 buf1 br1
              (evs1 ++ WEv.dim content :: evs2, t3, buf2, br2, it)
          | none =>
              let pre := List.take s t
              let evsFlush := if buf = [] then [] else [WEv.print (rl buf)]
              let evsPre := if pre = [] then [] else [WEv.print pre]
              let content := List.drop (s + 7) t
              ((evsFlush ++ evsPre) ++ [WEv.dim content, WEv.flush], [],
                if buf = [] then buf else [], if buf = [] then br else 1, true)

/-- The Show-mode branch (lines 145–210): when already inside a block,
either dim the content before `</think>` (tags stripped) and fall into
the loop, or dim the whole frame and `continue`; otherwise run the loop
directly. -/
def showFilter (rl : List Char → List Char) (t buf : List Char) (br : Nat)
    (inThink : Bool) : List WEv × List Char × List Char × Nat × Bool :=
  if inThink then
    match findSub thinkClose t with
    | some p =>
        let content := List.take p t
        let t1 := List.drop (p + 8) t
        let (evs, t2, buf2, br2, it) := showLoop rl t1.length t1 buf br
        (WEv.dim content :: evs, t2, buf2, br2, it)
    | none => ([WEv.dim t, WEv.flush], [], buf, br, true)
  else showLoop rl t.length t buf br

/-- The Default-mode `while` loop (lines 227–271): same scan and printing
discipline as Show, but every dimmed payload keeps the span's delimiter
text (`&text[start..end]`, resp. `&text[start..]`). -/
def defaultLoop (rl : List Char → List Char) :
    Nat → List Char → List Char → Nat →
      List WEv × List Char × List Char × Nat × Bool
  | 0, t, buf, br => ([], t, buf, br, false)
  | fuel + 1, t, buf, br =>
      match findSub thinkOpen t with
      | none => ([], t, buf, br, false)
      | some s =>
          match findSub thinkClose (List.drop s t) with
          | some r =>
              let pre := List.take s t
              let (evs1, buf1, br1) :=
                if pre = [] then ([], buf, br)
                else if buf = [] then ([WEv.print pre], buf, br)
                else ([WEv.print (rl buf), WEv.print pre], [], 1)
              let content := List.take (r + 8) (List.drop s t)
              let t2 := List.drop (s + r + 8) t
              let (evs2, t3, buf2, br2, it) := defaultLoop rl fuel t2 buf1 br1
              (evs1 ++ WEv.dim content :: evs2, t3, buf2, br2, it)
          | none =>
              let pre := List.take s t
              let evsFlush := if buf = [] then [] else [WEv.print (rl buf)]
              let evsPre := if pre = [] then [] else [WEv.print pre]
              let content := List.drop s t
              ((evsFlush ++ evsPre) ++ [WEv.dim content, WEv.flush], [],
                if buf = [] then buf else [], if buf = [] then br else 1, true)

/-- The Default-mode branch (lines 211–271): like `showFilter` but the
in-block closing dims `&text[..end_pos + 8]` — delimiter included. -/
def defaultFilter (rl : List Char → List Char) (t buf : List Char) (br : Nat)
    (inThink : Bool) : List WEv × List Char × List Char × Nat × Bool :=
  if inThink then
    match findSub thinkClose t with
    | some p =>
        let content := List.take (p + 8) t
        let t1 := List.drop (p + 8) t
        let (evs, t2, buf2, br2, it) := defaultLoop rl t1.length t1 buf br
        (WEv.dim content :: evs, t2, buf2, br2, it)
    | none => ([WEv.dim t, WEv.flush], [], buf, br, true)
  else defaultLoop rl t.length t buf br

/-- The incremental redraw (lines 278–330) for one frame whose filtered
text is non-empty: correct the queried cursor row, anchor (move or
scroll), clear downward, fold the text into `buffer` (rendering completed
lines through `render`), then draw `render_line(buffer)` and recompute
`buffer_rows`.  The cursor position is an input (the terminal query is
external). -/
def renderStep (rd rl : List Char → List Char) (columns : Nat)
    (cpos : Nat × Nat) (buffer : List Char) (bufferRows : Nat)
    (text : List Char) : List WEv × List Char × Nat :=
  let row := correct_row cpos.1 cpos.2 buffer columns
  let anchorEvs :=
    if bufferRows ≤ row + 1 then [WEv.moveTo 0 (row + 1 - bufferRows)]
    else [WEv.scrollUp (bufferRows - row - 1), WEv.moveTo 0 0]
  let (evs1, buffer1) :=
    if '\n' ∈ text then
      let whole := buffer ++ text
      let (head, tail) := split_line_tail whole
      let (pbEvs, _) := print_block (rd head) columns
      (pbEvs, tail)
    else ([], buffer ++ text)
  let out := rl buffer1
  let (evs2, rows2) :=
    if '\n' ∈ out then
      let (head, tail) := split_line_tail out
      let (pbEvs, n) := print_block head columns
      (pbEvs ++ [WEv.print tail], n + need_rows tail columns)
    else ([WEv.print out], need_rows out columns)
  (anchorEvs ++ WEv.clearDown :: evs1 ++ evs2 ++ [WEv.flush], buffer1, rows2)

/-- One `SseEvent::Text` arm of the frame loop (lines 97–331): expand
tabs, run the active mode's filter, skip the redraw when no final text
remains, otherwise run the incremental redraw.  `cpos` is the cursor
position the terminal reports for this frame. -/
def handleText (rd rl : List Char → List Char) (columns : Nat)
    (mode : ThinkTagMode) (cpos : Nat × Nat) (st : RState)
    (text0 : List Char) : List WEv × RState :=
  let text := expandTabs text0
  match mode with
  | ThinkTagMode.Replace =>
      let (t1, it1, acts, sp1) := replaceFilter text st.inThink st.thinkSpin
      let st1 : RState := { st with inThink := it1, thinkSpin := sp1 }
      if t1 = [] then (acts, st1)
      else
        let (evs, buf2, br2) :=
          renderStep rd rl columns cpos st1.buffer st1.bufferRows t1
        (acts ++ evs, { st1 with buffer := buf2, bufferRows := br2 })
  | ThinkTagMode.Hide =>
      let (t1, it1) := hideFilter text st.inThink
      let st1 : RState := { st with inThink := it1 }
      if t1 = [] then ([], st1)
      else
        let (evs, buf2, br2) :=
          renderStep rd rl columns cpos st1.buffer st1.bufferRows t1
        (evs, { st1 with buffer := buf2, bufferRows := br2 })
  | ThinkTagMode.Show =>
      let (evs0, t1, buf1, br1, it1) :=
        showFilter rl text st.buffer st.bufferRows st.inThink
      let st1 : RState := { st with buffer := buf1, bufferRows := br1, inThink := it1 }
      if t1 = [] then (evs0, st1)
      else
        let (evs, buf2, br2) := renderStep rd rl columns cpos buf1 br1 t1
        (evs0 ++ evs, { st1 with buffer := buf2, bufferRows := br2 })
  | ThinkTagMode.Default =>
      let (evs0, t1, buf1, br1, it1) :=
        defaultFilter rl text st.buffer st.bufferRows st.inThink
      let st1 : RState := { st with buffer := buf1, bufferRows := br1, inThink := it1 }
      if t1 = [] then (evs0, st1)
      else
        let (evs, buf2, br2) := renderStep rd rl columns cpos buf1 br1 t1
        (evs0 ++ evs, { st1 with buffer := buf2, bufferRows := br2 })

/-- A Hide-mode run over a sequence of frames (the per-frame tab expansion
included): the concatenation of the final text each frame passes
downstream to the renderer, and the final `in_think_block` state.  Hide
mode queues no writes of its own, so this concatenation is everything the
stream makes visible. -/
def hideStream : List (List Char) → Bool → List Char × Bool
  | [], b => ([], b)
  | f :: fs, b =>
      let (t1, b1) := hideFilter (expandTabs f) b
      let (rest, bf) := hideStream fs b1
      (t1 ++ rest, bf)

/-- A Show-mode run over a sequence of frames through the full per-frame
pipeline (`handleText`), with a fixed reported cursor position per frame:
the concatenated write trace and the final state. -/
def showRun (rd rl : List Char → List Char) (columns : Nat)
    (cpos : Nat × Nat) : List (List Char) → RState → List WEv × RState
  | [], st => ([], st)
  | f :: fs, st =>
      let (evs, st1) := handleText rd rl columns ThinkTagMode.Show cpos st f
      let (evs2, st2) := showRun rd rl columns cpos fs st1
      (evs ++ evs2, st2)

/-- One reasoning span as the spec's mode-invariant scan yields it:
whether its opening and closing delimiters fall inside this frame, and
the delimiter-free span content. -/
structure Span : Type where
  openIn : Bool
  closeIn : Bool
  content : List Char
deriving DecidableEq, Repr

/-- Modelled from the spec (§4.2): the within-frame part of the
mode-invariant span scan — repeatedly locate the next opening tag, then
its closer in the remainder of the frame; a closed span contributes its
interior and scanning continues after it, an unclosed opening contributes
the rest of the frame. -/
def scanSpansSpec : Nat → List Char → List Span
  | 0, _ => []
  | fuel + 1, t =>
      match findSub thinkOpen t with
      | none => []
      | some s =>
          match findSub thinkClose (List.drop s t) with
          | some r =>
              ⟨true, true, List.take (r - 7) (List.drop (s + 7) t)⟩
                :: scanSpansSpec fuel (List.drop (s + r + 8) t)
          | none => [⟨true, false, List.drop (s + 7) t⟩]

/-- Modelled from the spec (§4.2): the full mode-invariant scan of one
frame — when already inside a block the prefix up to the closing tag (or
the whole frame) is reasoning content, then the within-frame scan runs on
the remainder. -/
def specSpans (t : List Char) (inThink : Bool) : List Span :=
  if inThink then
    match findSub thinkClose t with
    | some p =>
        ⟨false, true, List.take p t⟩
          :: scanSpansSpec (List.drop (p + 8) t).length (List.drop (p + 8) t)
    | none => [⟨false, false, t⟩]
  else scanSpansSpec t.length t

/-- The span as Default mode dims it: whatever delimiter text lies in the
frame is kept around the content. -/
def spanWithDelims (sp : Span) : List Char :=
  (if sp.openIn then thinkOpen else []) ++ sp.content
    ++ (if sp.closeIn then thinkClose else [])

/-- The contents handed to `dimmed_text` by a write trace, in order. -/
def dimPayloads (evs : List WEv) : List (List Char) :=
  evs.filterMap fun e =>
    match e with
    | WEv.dim s => some s
    | _ => none

/-- The events of `gather_events arrived` processed by the `for` loop of
`markdown_stream_inner` (lines 91–336): `Text` frames go through
`handleText`, a `Done` marker breaks the outer loop (third component
true). -/
def processEvents (rd rl : List Char → List Char) (columns : Nat)
    (mode : ThinkTagMode) (cpos : Nat × Nat) :
    List SseEvent → RState → List WEv × RState × Bool
  | [], st => ([], st, false)
  | SseEvent.Done :: _, st => ([], st, true)
  | SseEvent.Text s :: rest, st =>
      let (evs, st1) := handleText rd rl columns mode cpos st s
      let (evs2, st2, d) := processEvents rd rl columns mode cpos rest st1
      (evs ++ evs2, st2, d)

/-- One pass of the `'outer` loop of `markdown_stream_inner` (lines
87–341): check the abort signal, batch (`gather_events` applied to the
events that arrive this window), process the resulting frame, poll the
abort signal again.  `none` means the loop breaks (Done or abort);
`some st` means it continues with state `st`. -/
def coordIter (rd rl : List Char → List Char) (columns : Nat)
    (mode : ThinkTagMode) (cpos : Nat × Nat) (abortTop abortBottom : Bool)
    (arrived : List SseEvent) (st : RState) : Option RState :=
  if abortTop then none
  else
    let (_, st1, sawDone) :=
      processEvents rd rl columns mode cpos (gather_events arrived) st
    if sawDone then none
    else if abortBottom then none
    else some st1

/-- `n` passes of the `'outer` loop with the source channel closed and
empty (every `gather_events` call returns immediately with no events) and
the abort signal never set: `none` iff the loop breaks within `n`
passes. -/
def coordRunClosed (rd rl : List Char → List Char) (columns : Nat)
    (mode : ThinkTagMode) (cpos : Nat × Nat) :
    Nat → RState → Option RState
  | 0, st => some st
  | n + 1, st =>
      match coordIter rd rl columns mode cpos false false [] st with
      | none => none
      | some st1 => coordRunClosed rd rl columns mode cpos n st1

/-- The terminal-mode actions `markdown_stream` performs, in order. -/
inductive TAct : Type
  | enableRaw
  | disableRaw
  | newline
deriving DecidableEq, Repr

/-- `markdown_stream` (lines 19–37) as a function of which of its four
fallible steps succeed: `enable_raw_mode()?`, `terminal::size()?`, the
inner stream loop, `disable_raw_mode()?`; returns the successful
terminal-mode actions in order (`disableRaw` appears only when the
release call itself succeeds) and whether the whole call returns `Ok`. -/
def markdown_stream (enableOk sizeOk innerOk disableOk : Bool) :
    List TAct × Bool :=
  if enableOk = false then ([], false)
  else if sizeOk = false then ([TAct.enableRaw], false)
  else if disableOk = false then ([TAct.enableRaw], false)
  else if innerOk = false then
    ([TAct.enableRaw, TAct.disableRaw, TAct.newline], false)
  else ([TAct.enableRaw, TAct.disableRaw], true)

/-- Reassemble the pieces of a test input into frames: each boolean says
whether a frame boundary is placed between two adjacent pieces. -/
def glueFrames (acc : List Char) : List (List Char) → List Bool → List (List Char)
  | [], _ => [acc]
  | p :: rest, bs =>
      match bs with
      | [] => glueFrames (acc ++ p) rest []
      | b :: bs2 =>
          if b then acc :: glueFrames p rest bs2
          else glueFrames (acc ++ p) rest bs2

/-- Every split of `"A<think>B</think>C"` into frames whose boundaries do
not fall inside a tag literal: the four candidate boundary positions sit
around `"<think>"` and `"</think>"`. -/
def splitABC (b1 b2 b3 b4 : Bool) : List (List Char) :=
  glueFrames (String.toList "A")
    [String.toList "<think>", String.toList "B",
      String.toList "</think>", String.toList "C"]
    [b1, b2, b3, b4]

theorem leadsWith_spec (p : List Char) :
    ∀ l : List Char, leadsWith p l = true →
      p.length ≤ l.length ∧ List.take p.length l = p := by
  induction p with
  | nil => intro l _; simp
  | cons c cs ih =>
      intro l h
      cases l with
      | nil => simp [leadsWith] at h
      | cons d ds =>
          simp only [leadsWith, Bool.and_eq_true, decide_eq_true_eq] at h
          obtain ⟨h1, h2⟩ := h
          obtain ⟨hl, ht⟩ := ih ds h2
          subst h1
          exact ⟨Nat.succ_le_succ hl, by simp [List.take_succ_cons, ht]⟩

theorem leadsWith_nil (p : List Char) (h : leadsWith p [] = true) : p = [] := by
  cases p with
  | nil => rfl
  | cons c cs => simp [leadsWith] at h

theorem findSub_le_and_take (pat : List Char) :
    ∀ (l : List Char) (i : Nat), findSub pat l = some i →
      i + pat.length ≤ l.length ∧
        List.take (i + pat.length) l = List.take i l ++ pat := by
  intro l
  induction l with
  | nil =>
      intro i h
      by_cases hlw : leadsWith pat [] = true
      · obtain rfl := leadsWith_nil pat hlw
        simp [findSub, leadsWith] at h
        subst h
        simp
      · simp [findSub, hlw] at h
  | cons c rest ih =>
      intro i h
      by_cases hlw : leadsWith pat (c :: rest) = true
      · simp only [findSub, hlw, if_true] at h
        obtain rfl : (0 : Nat) = i := by injection h
        obtain ⟨hl, ht⟩ := leadsWith_spec pat (c :: rest) hlw
        simpa using ⟨hl, ht⟩
      · simp only [findSub, hlw, if_false, Bool.false_eq_true] at h
        cases hf : findSub pat rest with
        | none => rw [hf] at h; simp at h
        | some j =>
            rw [hf] at h
            simp only [Option.map_some'] at h
            obtain rfl : j + 1 = i := by injection h
            obtain ⟨hl, ht⟩ := ih j hf
            constructor
            · simp only [List.length_cons]; omega
            · have he : j + 1 + pat.length = (j + pat.length) + 1 := by omega
              rw [he, List.take_succ_cons, ht, List.take_succ_cons]
              simp

theorem findSub_nil (pat : List Char) (c : Char) (cs : List Char)
    (hp : pat = c :: cs) : findSub pat [] = none := by
  subst hp; simp [findSub, leadsWith]

theorem findSub_open_split (t : List Char) (s : Nat)
    (h : findSub thinkOpen t = some s) :
    List.drop s t = thinkOpen ++ List.drop (s + 7) t := by
  obtain ⟨hle, htake⟩ := findSub_le_and_take thinkOpen t s h
  have h7 : thinkOpen.length = 7 := rfl
  rw [h7] at hle htake
  have hs : s ≤ t.length := by omega
  have h1 : List.take s t ++ (thinkOpen ++ List.drop (s + 7) t) = t := by
    rw [← List.append_assoc, ← htake, List.take_append_drop]
  conv_lhs => rw [← h1]
  rw [List.drop_append_eq_append_drop]
  have h2 : List.drop s (List.take s t) = [] := by
    apply List.drop_eq_nil_of_le; simp [List.length_take]
  rw [h2]
  simp [List.length_take, Nat.min_eq_left hs]

theorem findSub_close_shift (v : List Char) :
    findSub thinkClose (thinkOpen ++ v)
      = (findSub thinkClose v).map (· + 7) := by
  have h : findSub thinkClose (thinkOpen ++ v)
      = ((((((((findSub thinkClose v).map (· + 1)).map (· + 1)).map
          (· + 1)).map (· + 1)).map (· + 1)).map (· + 1)).map (· + 1)) := rfl
  rw [h]
  cases findSub thinkClose v with
  | none => rfl
  | some r => simp only [Option.map_some']

theorem findSub_close_take (t : List Char) (p : Nat)
    (h : findSub thinkClose t = some p) :
    List.take (p + 8) t = List.take p t ++ thinkClose := by
  have := (findSub_le_and_take thinkClose t p h).2
  have h8 : thinkClose.length = 8 := rfl
  rwa [h8] at this

/-- The split of a frame's final/reasoning structure (claim C10): with no
line break the head is empty and the tail is the whole string; with one,
the split is at the final line break and the tail is break-free. -/
theorem split_line_tail_spec (s : List Char) :
    ('\n' ∉ s → split_line_tail s = ([], s)) ∧
    ('\n' ∈ s →
      (split_line_tail s).1 ++ '\n' :: (split_line_tail s).2 = s ∧
        '\n' ∉ (split_line_tail s).2) := by
  induction s with
  | nil => exact ⟨fun _ => rfl, fun h => absurd h (List.not_mem_nil '\n')⟩
  | cons c rest ih =>
      by_cases hm : '\n' ∈ rest
      · have hrw : split_line_tail (c :: rest)
            = (c :: (split_line_tail rest).1, (split_line_tail rest).2) := by
          simp [split_line_tail, hm]
        obtain ⟨hpre, htail⟩ := ih.2 hm
        constructor
        · intro hn; exact absurd (List.mem_cons_of_mem c hm) hn
        · intro _
          rw [hrw]
          exact ⟨by simpa using hpre, htail⟩
      · by_cases hc : c = '\n'
        · subst hc
          have hrw : split_line_tail ('\n' :: rest) = ([], rest) := by
            simp [split_line_tail, hm]
          constructor
          · intro hn; exact absurd (List.mem_cons_self '\n' rest) hn
          · intro _; rw [hrw]; exact ⟨rfl, hm⟩
        · have hrw : split_line_tail (c :: rest) = ([], c :: rest) := by
            simp [split_line_tail, hm, hc]
          constructor
          · intro _; exact hrw
          · intro hn
            rcases List.mem_cons.mp hn with h1 | h2
            · exact absurd h1.symm hc
            · exact absurd h2 hm

theorem split_line_tail_spec_witness :
    split_line_tail (String.toList "xy")
        = ([], String.toList "xy") ∧
      (split_line_tail (String.toList "ab\ncd")).1 ++ '\n'
          :: (split_line_tail (String.toList "ab\ncd")).2
        = String.toList "ab\ncd" ∧
      '\n' ∉ (split_line_tail (String.toList "ab\ncd")).2 :=
  ⟨(split_line_tail_spec (String.toList "xy")).1 (by decide),
    ((split_line_tail_spec (String.toList "ab\ncd")).2 (by decide)).1,
    ((split_line_tail_spec (String.toList "ab\ncd")).2 (by decide)).2⟩

/-- The cursor-row correction (claim C8): the queried row is decremented by
exactly one when `column == 0`, `row > 0` and the display width of the
current buffer equals the terminal width, and used unchanged otherwise. -/
theorem correct_row_spec (col row : Nat) (buffer : List Char) (columns : Nat) :
    (col = 0 ∧ 0 < row ∧ displayWidth buffer = columns →
        correct_row col row buffer columns = row - 1) ∧
    (¬(col = 0 ∧ 0 < row ∧ displayWidth buffer = columns) →
        correct_row col row buffer columns = row) := by
  constructor
  · intro h; simp [correct_row, h]
  · intro h; simp [correct_row, h]

theorem correct_row_spec_witness :
    correct_row 0 2 (String.toList "ab") 2 = 1 ∧
      correct_row 1 2 (String.toList "ab") 2 = 2 :=
  ⟨(correct_row_spec 0 2 (String.toList "ab") 2).1 ⟨rfl, by decide, by decide⟩,
    (correct_row_spec 1 2 (String.toList "ab") 2).2 (by decide)⟩

/-- Counterexample to claim C7: when the terminal-width query right after
`enable_raw_mode()` fails, `markdown_stream` propagates the error with raw
mode still enabled — no release happens on that exit path. -/
theorem markdown_stream_leaks_raw_mode_on_size_error :
    markdown_stream true false true true = ([TAct.enableRaw], false) ∧
      TAct.disableRaw ∉ (markdown_stream true false true true).1 := by
  decide

/-- Amended claim C7: raw mode is released exactly on the exit paths
reached after both the acquisition and the width query succeed (and the
release call itself succeeds); when the inner loop errors and the release
succeeds, the trailing line break is emitted after the release and the
call returns the error. -/
theorem markdown_stream_cleanup (e s i d : Bool) :
    (TAct.disableRaw ∈ (markdown_stream e s i d).1 ↔
        e = true ∧ s = true ∧ d = true) ∧
    (TAct.newline ∈ (markdown_stream e s i d).1 ↔
        e = true ∧ s = true ∧ d = true ∧ i = false) ∧
    (e = true → s = true → d = true → i = false →
        markdown_stream e s i d
          = ([TAct.enableRaw, TAct.disableRaw, TAct.newline], false)) ∧
    ((markdown_stream e s i d).2 = true ↔
        e = true ∧ s = true ∧ i = true ∧ d = true) := by
  cases e <;> cases s <;> cases i <;> cases d <;> decide

theorem markdown_stream_cleanup_witness :
    markdown_stream true true false true
      = ([TAct.enableRaw, TAct.disableRaw, TAct.newline], false) :=
  (markdown_stream_cleanup true true false true).2.2.1 rfl rfl rfl rfl

theorem gatherLoop_spec (evs : List SseEvent) :
    (gatherLoop evs).1 = windowTexts evs ∧
      ((gatherLoop evs).2 = true ↔ SseEvent.Done ∈ evs) := by
  induction evs with
  | nil => simp [gatherLoop, windowTexts]
  | cons e rest ih =>
      cases e with
      | Text s =>
          have h1 : gatherLoop (SseEvent.Text s :: rest)
              = (s :: (gatherLoop rest).1, (gatherLoop rest).2) := rfl
          rw [h1]
          simp only [windowTexts, List.mem_cons]
          exact ⟨by rw [ih.1], by
            rw [ih.2]
            constructor
            · intro h; exact Or.inr h
            · rintro (h | h)
              · exact absurd h (by simp)
              · exact h⟩
      | Done => simp [gatherLoop, windowTexts]

/-- Claim C6: over one batching window, `gather_events` yields at most one
coalesced `Text` event — the in-order concatenation of every delta
received before the stop — followed by `Done` exactly when a `Done`
marker arrived; deltas are never reordered. -/
theorem gather_events_coalesces (evs : List SseEvent) :
    gather_events evs =
      (if windowTexts evs = [] then []
        else [SseEvent.Text (windowTexts evs).flatten])
        ++ (if SseEvent.Done ∈ evs then [SseEvent.Done] else []) := by
  obtain ⟨h1, h2⟩ := gatherLoop_spec evs
  rcases hgl : gatherLoop evs with ⟨texts, done⟩
  rw [hgl] at h1 h2
  simp only at h1 h2
  subst h1
  simp only [gather_events, hgl]
  cases done with
  | false =>
      have hnd : SseEvent.Done ∉ evs := fun hm =>
        Bool.false_ne_true (h2.mpr hm)
      simp [hnd]
  | true =>
      have hd : SseEvent.Done ∈ evs := h2.mp rfl
      simp [hd]

theorem replaceLoop_eq_hideLoop (fuel : Nat) :
    ∀ t : List Char,
      (replaceLoop fuel t).1 = (hideLoop fuel t).1 ∧
        (replaceLoop fuel t).2.1 = (hideLoop fuel t).2 := by
  induction fuel with
  | zero => intro t; simp [replaceLoop, hideLoop]
  | succ n ih =>
      intro t
      simp only [replaceLoop, hideLoop]
      cases h1 : findSub thinkOpen t with
      | none => simp [h1]
      | some s =>
          simp only [h1]
          cases h2 : findSub thinkClose (List.drop s t) with
          | none => simp [h2]
          | some r => simp only [h2]; exact ih _

/-- Claim C5: for every frame text and every prior `in_think_block` state,
the Hide and Replace filters hand the renderer the same final text and
compute the same updated `in_think_block`; Replace differs only in its
"Thinking" spinner side effects. -/
theorem hide_replace_same_filter (t : List Char) (inThink spin : Bool) :
    (replaceFilter t inThink spin).1 = (hideFilter t inThink).1 ∧
      (replaceFilter t inThink spin).2.1 = (hideFilter t inThink).2 := by
  cases inThink with
  | false =>
      simp only [replaceFilter, hideFilter, Bool.false_eq_true, if_false]
      exact replaceLoop_eq_hideLoop t.length t
  | true =>
      cases hc : findSub thinkClose t with
      | none => simp [replaceFilter, hideFilter, hc]
      | some p =>
          simp [replaceFilter, hideFilter, hc]
          exact replaceLoop_eq_hideLoop _ _

/-- Counterexample to claim C2: when a frame boundary falls inside the
opening tag's literal text (`"A<th"` then `"ink>B</think>C"`), Hide mode
recognizes no tag in either frame and passes the whole input — `"B"`
included — downstream, so the final text is not `"AC"`. -/
theorem hide_split_tag_counterexample :
    (hideStream [String.toList "A<th", String.toList "ink>B</think>C"]
          false).1
        ≠ String.toList "AC" ∧
      'B' ∈ (hideStream [String.toList "A<th",
          String.toList "ink>B</think>C"] false).1 := by
  decide

/-- Amended claim C2: for the input `"A<think>B</think>C"` split into
frames at every set of boundary positions that does not cut through the
literal text of an opening or closing tag, Hide mode passes exactly
`"AC"` downstream over the whole stream, ends outside a think block, and
never lets `'B'` through. -/
theorem hide_every_tag_respecting_split (b1 b2 b3 b4 : Bool) :
    hideStream (splitABC b1 b2 b3 b4) false = (String.toList "AC", false) ∧
      'B' ∉ (hideStream (splitABC b1 b2 b3 b4) false).1 := by
  cases b1 <;> cases b2 <;> cases b3 <;> cases b4 <;> decide

theorem coordIter_closed (rd rl : List Char → List Char) (columns : Nat)
    (mode : ThinkTagMode) (cpos : Nat × Nat) (st : RState) :
    coordIter rd rl columns mode cpos false false [] st = some st := rfl

theorem coordRunClosed_const (rd rl : List Char → List Char) (columns : Nat)
    (mode : ThinkTagMode) (cpos : Nat × Nat) :
    ∀ (n : Nat) (st : RState),
      coordRunClosed rd rl columns mode cpos n st = some st := by
  intro n
  induction n with
  | zero => intro st; rfl
  | succ k ih =>
      intro st
      simp only [coordRunClosed, coordIter_closed rd rl columns mode cpos st]
      exact ih st

/-- Counterexample to claim C1: with the source channel closed without a
`Done` marker ever sent and the abort signal clear, the coordinator loop
never terminates — every pass of the `'outer` loop returns with the state
unchanged and polls again; no number of passes reaches an exit. -/
theorem closed_channel_loop_never_terminates :
    ¬ ∃ n : Nat, coordRunClosed id id 80 ThinkTagMode.Hide (0, 0) n
        ⟨[], 1, false, false⟩ = none := by
  rintro ⟨n, hn⟩
  rw [coordRunClosed_const id id 80 ThinkTagMode.Hide (0, 0) n
    ⟨[], 1, false, false⟩] at hn
  cases hn

/-- Amended claim C1: closing the source without `Done` makes
`gather_events` return immediately with an empty batch (no hang inside
the batcher), but the coordinator loop treats that as "keep polling": the
pass leaves the state unchanged and continues, and only the abort signal
(or a `Done` marker) makes the loop exit. -/
theorem closed_channel_keeps_polling (rd rl : List Char → List Char)
    (columns : Nat) (mode : ThinkTagMode) (cpos : Nat × Nat) (st : RState) :
    gather_events [] = [] ∧
      coordIter rd rl columns mode cpos false false [] st = some st ∧
      coordIter rd rl columns mode cpos true false [] st = none :=
  ⟨rfl, rfl, rfl⟩

theorem divCeil_eq_ceil (a c : Nat) (hc : 0 < c) :
    divCeil a c = (a + c - 1) / c := by
  rcases Nat.eq_zero_or_pos a with ha | ha
  · subst ha
    have h1 : (c - 1) / c = 0 := Nat.div_eq_of_lt (by omega)
    simp [divCeil, h1]
  · have h1 : a + c - 1 = (a - 1) + c := by omega
    rw [h1, Nat.add_div_right _ hc]
    have h2 : a = (a - 1) + 1 := by omega
    unfold divCeil
    rw [h2, Nat.succ_div]
    by_cases hd : c ∣ (a - 1) + 1
    · have hm : ((a - 1) + 1) % c = 0 := Nat.dvd_iff_mod_eq_zero.mp hd
      simp [hd, hm]
    · have hm : ¬((a - 1) + 1) % c = 0 := fun h =>
        hd (Nat.dvd_iff_mod_eq_zero.mpr h)
      simp [hd, hm]

theorem divCeil_mono (a b c : Nat) (hc : 0 < c) (h : a ≤ b) :
    divCeil a c ≤ divCeil b c := by
  rw [divCeil_eq_ceil a c hc, divCeil_eq_ceil b c hc]
  exact Nat.div_le_div_right (by omega)

theorem one_le_divCeil (a c : Nat) (hc : 0 < c) (ha : 0 < a) :
    1 ≤ divCeil a c := by
  rw [divCeil_eq_ceil a c hc]
  calc 1 = c / c := (Nat.div_self hc).symm
    _ ≤ (a + c - 1) / c := Nat.div_le_div_right (by omega)

theorem displayWidth_replicate (n : Nat) :
    displayWidth (List.replicate n 'a') = n := by
  induction n with
  | zero => rfl
  | succ k ih =>
      rw [List.replicate_succ]
      simp only [displayWidth, List.map_cons, List.sum_cons]
      rw [show charWidth 'a' = 1 from rfl]
      simp only [displayWidth] at ih
      omega

/-- Counterexample to claim C9: `display_width(text).max(1) as u16` wraps
at `2^16`, so a text of display width 65536 is estimated at 0 rows —
below the claimed minimum of 1 and below the estimate for the strictly
narrower 65535-wide text, refuting monotonicity. -/
theorem need_rows_truncation_counterexample :
    displayWidth (List.replicate 65535 'a')
        ≤ displayWidth (List.replicate 65536 'a') ∧
      need_rows (List.replicate 65536 'a') 80 = 0 ∧
      need_rows (List.replicate 65535 'a') 80 = 820 := by
  have h1 := displayWidth_replicate 65535
  have h2 := displayWidth_replicate 65536
  refine ⟨by rw [h1, h2]; omega, ?_, ?_⟩
  · unfold need_rows
    rw [h2]
    norm_num [divCeil]
  · unfold need_rows
    rw [h1]
    norm_num [divCeil]

/-- Amended claim C9: for every `columns > 0` the estimator returns 1 on
the empty string, equals `ceil(display_width/columns)` with a minimum of
1 for every text of display width below `2^16` (the `as u16` cast wraps
above that), and is monotonically non-decreasing in display width within
that range. -/
theorem need_rows_estimator (columns : Nat) (hc : 0 < columns) :
    need_rows [] columns = 1 ∧
      (∀ t : List Char, displayWidth t < 65536 →
        need_rows t columns = max (divCeil (displayWidth t) columns) 1) ∧
      (∀ t1 t2 : List Char, displayWidth t1 ≤ displayWidth t2 →
        displayWidth t2 < 65536 →
        need_rows t1 columns ≤ need_rows t2 columns) := by
  have d1 : divCeil 1 columns = 1 := by
    rw [divCeil_eq_ceil 1 columns hc]
    have he : 1 + columns - 1 = columns := by omega
    rw [he, Nat.div_self hc]
  have key : ∀ t : List Char, displayWidth t < 65536 →
      need_rows t columns = max (divCeil (displayWidth t) columns) 1 := by
    intro t ht
    unfold need_rows
    have hmod : max (displayWidth t) 1 % 65536 = max (displayWidth t) 1 :=
      Nat.mod_eq_of_lt (max_lt ht (by norm_num))
    rw [hmod]
    rcases Nat.eq_zero_or_pos (displayWidth t) with h0 | hpos
    · rw [h0]
      have hz : divCeil 0 columns = 0 := by simp [divCeil]
      rw [hz]
      simpa using d1
    · rw [Nat.max_eq_left hpos]
      rw [Nat.max_eq_left (one_le_divCeil _ _ hc hpos)]
  refine ⟨?_, key, ?_⟩
  · have h0 : displayWidth ([] : List Char) = 0 := rfl
    have := key [] (by rw [h0]; norm_num)
    rw [this, h0]
    have hz : divCeil 0 columns = 0 := by simp [divCeil]
    rw [hz]
    simp
  · intro t1 t2 h12 h2
    have hlt : displayWidth t1 < 65536 := lt_of_le_of_lt h12 h2
    rw [key t1 hlt, key t2 h2]
    exact max_le_max (divCeil_mono _ _ _ hc h12) le_rfl

theorem need_rows_estimator_witness :
    need_rows [] 80 = 1 ∧
      need_rows (String.toList "abc") 80
        = max (divCeil (displayWidth (String.toList "abc")) 80) 1 ∧
      need_rows (String.toList "a") 80 ≤ need_rows (String.toList "abc") 80 :=
  ⟨(need_rows_estimator 80 (by decide)).1,
    (need_rows_estimator 80 (by decide)).2.1 (String.toList "abc") (by decide),
    (need_rows_estimator 80 (by decide)).2.2 (String.toList "a")
      (String.toList "abc") (by decide) (by decide)⟩

/-- Counterexample to claim C4: when the text before the opening tag in
the frame is empty (`"A"` arrived in an earlier frame and sits in the
unfinalized buffer), Show mode prints the dimmed span without flushing
the non-empty buffer first — the frame's very first write is the dimmed
`"B"`, and the earlier `"A"` is re-rendered only afterwards, as part of
`render_line("AC")`. -/
theorem show_unflushed_buffer_counterexample :
    String.toList "A" ≠ [] ∧
      (handleText id id 80 ThinkTagMode.Show (0, 0)
          ⟨String.toList "A", 1, false, false⟩
          (String.toList "<think>B</think>C")).1.head?
        = some (WEv.dim (String.toList "B")) ∧
      showRun id id 80 (0, 0)
          [String.toList "A", String.toList "<think>B</think>C"]
          ⟨[], 1, false, false⟩
        = ([WEv.moveTo 0 0, WEv.clearDown, WEv.print (String.toList "A"),
            WEv.flush, WEv.dim (String.toList "B"), WEv.moveTo 0 0,
            WEv.clearDown, WEv.print (String.toList "AC"), WEv.flush],
            ⟨String.toList "AC", 1, false, false⟩) := by
  decide

/-- Amended claim C4: in Show mode, the unfinalized buffer is flushed
through `render_line` before a reasoning span exactly per the code's
condition — for a span closed within the frame, only when the in-frame
text before the opening tag is non-empty (and then a non-empty buffer is
flushed first, before the pre-text and the dimmed content); and for the
single-frame input `"A<think>B</think>C"` the write order is `"A"`, the
dimmed `"B"`, then the rendered `"C"`. -/
theorem show_flush_ordering :
    (handleText id id 80 ThinkTagMode.Show (0, 0) ⟨[], 1, false, false⟩
        (String.toList "A<think>B</think>C")
      = ([WEv.print (String.toList "A"), WEv.dim (String.toList "B"),
          WEv.moveTo 0 0, WEv.clearDown, WEv.print (String.toList "C"),
          WEv.flush], ⟨String.toList "C", 1, false, false⟩)) ∧
    (∀ (rl : List Char → List Char) (t buf : List Char) (br s r : Nat),
      findSub thinkOpen t = some s →
      findSub thinkClose (List.drop s t) = some r →
      List.take s t ≠ [] → buf ≠ [] →
      ((showFilter rl t buf br false).1).take 3
        = [WEv.print (rl buf), WEv.print (List.take s t),
            WEv.dim (List.take (r - 7) (List.drop (s + 7) t))]) := by
  constructor
  · decide
  · intro rl t buf br s r h1 h2 hpre hbuf
    cases t with
    | nil =>
        rw [findSub_nil thinkOpen '<' (String.toList "think>") rfl] at h1
        cases h1
    | cons c ts =>
        show (showLoop rl (ts.length + 1) (c :: ts) buf br).1.take 3 = _
        rcases hrec : showLoop rl ts.length
            (List.drop (s + r + 8) (c :: ts)) [] 1 with ⟨evs2, t3, buf2, br2, it⟩
        simp only [showLoop, h1, h2, if_neg hpre, if_neg hbuf, hrec]
        rfl

theorem show_flush_ordering_witness :
    ((showFilter id (String.toList "X<think>B</think>")
          (String.toList "A") 1 false).1).take 3
      = [WEv.print (String.toList "A"),
          WEv.print (List.take 1 (String.toList "X<think>B</think>")),
          WEv.dim (List.take (8 - 7)
            (List.drop (1 + 7) (String.toList "X<think>B</think>")))] :=
  show_flush_ordering.2 id (String.toList "X<think>B</think>")
    (String.toList "A") 1 1 8 (by decide) (by decide) (by decide) (by decide)

theorem dimPayloads_append (a b : List WEv) :
    dimPayloads (a ++ b) = dimPayloads a ++ dimPayloads b := by
  simp [dimPayloads, List.filterMap_append]

theorem dimPayloads_nil : dimPayloads [] = [] := rfl

theorem dimPayloads_cons_dim (s : List Char) (l : List WEv) :
    dimPayloads (WEv.dim s :: l) = s :: dimPayloads l := rfl

theorem dimPayloads_cons_print (s : List Char) (l : List WEv) :
    dimPayloads (WEv.print s :: l) = dimPayloads l := rfl

theorem dimPayloads_cons_flush (l : List WEv) :
    dimPayloads (WEv.flush :: l) = dimPayloads l := rfl

theorem take_span_with_delims (t : List Char) (s r : Nat)
    (h1 : findSub thinkOpen t = some s)
    (h2 : findSub thinkClose (List.drop s t) = some r) :
    7 ≤ r ∧
      List.take (r + 8) (List.drop s t)
        = thinkOpen ++ (List.take (r - 7) (List.drop (s + 7) t) ++ thinkClose) := by
  have hsplit := findSub_open_split t s h1
  rw [hsplit, findSub_close_shift] at h2
  cases hf : findSub thinkClose (List.drop (s + 7) t) with
  | none => rw [hf] at h2; cases h2
  | some q =>
      rw [hf] at h2
      simp only [Option.map_some'] at h2
      obtain rfl : q + 7 = r := by injection h2
      refine ⟨by omega, ?_⟩
      have hv := findSub_close_take (List.drop (s + 7) t) q hf
      rw [hsplit, List.take_append_eq_append_take]
      have hlo : thinkOpen.length = 7 := rfl
      have htO : List.take (q + 7 + 8) thinkOpen = thinkOpen :=
        List.take_of_length_le (by rw [hlo]; omega)
      rw [htO, hlo]
      have he1 : q + 7 + 8 - 7 = q + 8 := by omega
      have he2 : q + 7 - 7 = q := by omega
      rw [he1, he2, hv]

theorem showLoop_dims (rl : List Char → List Char) (fuel : Nat) :
    ∀ (t buf : List Char) (br : Nat),
      dimPayloads (showLoop rl fuel t buf br).1
        = (scanSpansSpec fuel t).map Span.content := by
  induction fuel with
  | zero => intro t buf br; simp [showLoop, scanSpansSpec, dimPayloads]
  | succ n ih =>
      intro t buf br
      simp only [showLoop, scanSpansSpec]
      cases h1 : findSub thinkOpen t with
      | none => simp [dimPayloads]
      | some s =>
          simp only [h1]
          cases h2 : findSub thinkClose (List.drop s t) with
          | none =>
              simp only [h2]
              by_cases hb : buf = [] <;> by_cases hp : List.take s t = [] <;>
                simp [hb, hp, dimPayloads_append, dimPayloads_nil,
                  dimPayloads_cons_dim, dimPayloads_cons_print,
                  dimPayloads_cons_flush]
          | some r =>
              simp only [h2]
              by_cases hp : List.take s t = []
              · rcases hrec : showLoop rl n (List.drop (s + r + 8) t) buf br
                  with ⟨e2, t3, b2, r2, it⟩
                have hd := ih (List.drop (s + r + 8) t) buf br
                rw [hrec] at hd
                simp [hp, hrec, dimPayloads_cons_dim, hd]
              · by_cases hb : buf = []
                · subst hb
                  rcases hrec : showLoop rl n (List.drop (s + r + 8) t) [] br
                    with ⟨e2, t3, b2, r2, it⟩
                  have hd := ih (List.drop (s + r + 8) t) [] br
                  rw [hrec] at hd
                  simp [hp, hrec, dimPayloads_append, dimPayloads_nil,
                    dimPayloads_cons_print, dimPayloads_cons_dim, hd]
                · rcases hrec : showLoop rl n (List.drop (s + r + 8) t) [] 1
                    with ⟨e2, t3, b2, r2, it⟩
                  have hd := ih (List.drop (s + r + 8) t) [] 1
                  rw [hrec] at hd
                  simp [hp, hb, hrec, dimPayloads_append, dimPayloads_nil,
                    dimPayloads_cons_print, dimPayloads_cons_dim, hd]

theorem defaultLoop_dims (rl : List Char → List Char) (fuel : Nat) :
    ∀ (t buf : List Char) (br : Nat),
      dimPayloads (defaultLoop rl fuel t buf br).1
        = (scanSpansSpec fuel t).map spanWithDelims := by
  induction fuel with
  | zero => intro t buf br; simp [defaultLoop, scanSpansSpec, dimPayloads]
  | succ n ih =>
      intro t buf br
      simp only [defaultLoop, scanSpansSpec]
      cases h1 : findSub thinkOpen t with
      | none => simp [dimPayloads]
      | some s =>
          simp only [h1]
          cases h2 : findSub thinkClose (List.drop s t) with
          | none =>
              simp only [h2]
              have hsp := findSub_open_split t s h1
              by_cases hb : buf = [] <;> by_cases hp : List.take s t = [] <;>
                simp [hb, hp, dimPayloads_append, dimPayloads_nil,
                  dimPayloads_cons_dim, dimPayloads_cons_print,
                  dimPayloads_cons_flush, spanWithDelims, hsp]
          | some r =>
              simp only [h2]
              obtain ⟨hr7, hspan⟩ := take_span_with_delims t s r h1 h2
              by_cases hp : List.take s t = []
              · rcases hrec : defaultLoop rl n (List.drop (s + r + 8) t) buf br
                  with ⟨e2, t3, b2, r2, it⟩
                have hd := ih (List.drop (s + r + 8) t) buf br
                rw [hrec] at hd
                simp [hp, hrec, dimPayloads_cons_dim, hd, hspan, spanWithDelims]
              · by_cases hb : buf = []
                · subst hb
                  rcases hrec : defaultLoop rl n (List.drop (s + r + 8) t) [] br
                    with ⟨e2, t3, b2, r2, it⟩
                  have hd := ih (List.drop (s + r + 8) t) [] br
                  rw [hrec] at hd
                  simp [hp, hrec, dimPayloads_append, dimPayloads_nil,
                    dimPayloads_cons_print, dimPayloads_cons_dim, hd, hspan,
                    spanWithDelims]
                · rcases hrec : defaultLoop rl n (List.drop (s + r + 8) t) [] 1
                    with ⟨e2, t3, b2, r2, it⟩
                  have hd := ih (List.drop (s + r + 8) t) [] 1
                  rw [hrec] at hd
                  simp [hp, hb, hrec, dimPayloads_append, dimPayloads_nil,
                    dimPayloads_cons_print, dimPayloads_cons_dim, hd, hspan,
                    spanWithDelims]

/-- Counterexample to claim C3: on the frame `"<think>B</think>"` the
styled reasoning write of Show mode carries only the span content `"B"`,
while Default mode's carries the span including both delimiters — the two
modes' styled outputs are not identical. -/
theorem show_default_dims_differ :
    dimPayloads (showFilter id (String.toList "<think>B</think>")
          [] 1 false).1
        = [String.toList "B"] ∧
      dimPayloads (defaultFilter id (String.toList "<think>B</think>")
          [] 1 false).1
        = [String.toList "<think>B</think>"] ∧
      dimPayloads (showFilter id (String.toList "<think>B</think>")
          [] 1 false).1
        ≠ dimPayloads (defaultFilter id (String.toList "<think>B</think>")
          [] 1 false).1 := by
  decide

/-- Amended claim C3: for every frame the two styled modes dim the same
reasoning spans, at the same points and through the same
`dimmed_text`-plus-break-normalization pipeline, but with different
payloads — Default dims each span including whatever opening/closing
delimiter text lies in the frame, while Show dims only the span's
delimiter-free content (the two coincide exactly on a continuation frame
that neither opens nor closes a span). -/
theorem show_default_dim_payloads (rl : List Char → List Char)
    (t buf : List Char) (br : Nat) (inThink : Bool) :
    dimPayloads (showFilter rl t buf br inThink).1
        = (specSpans t inThink).map Span.content ∧
      dimPayloads (defaultFilter rl t buf br inThink).1
        = (specSpans t inThink).map spanWithDelims := by
  cases inThink with
  | false =>
      constructor
      · have := showLoop_dims rl t.length t buf br
        simpa [showFilter, specSpans] using this
      · have := defaultLoop_dims rl t.length t buf br
        simpa [defaultFilter, specSpans] using this
  | true =>
      cases hc : findSub thinkClose t with
      | none =>
          constructor <;>
            simp [showFilter, defaultFilter, specSpans, hc,
              dimPayloads_cons_dim, dimPayloads_cons_flush, dimPayloads_nil,
              spanWithDelims]
      | some p =>
          constructor
          · rcases hrec : showLoop rl (t.length - (p + 8))
                (List.drop (p + 8) t) buf br with ⟨e2, t3, b2, r2, it⟩
            have hd := showLoop_dims rl (t.length - (p + 8))
              (List.drop (p + 8) t) buf br
            rw [hrec] at hd
            simp [showFilter, specSpans, hc, hrec, dimPayloads_cons_dim, hd]
          · rcases hrec : defaultLoop rl (t.length - (p + 8))
                (List.drop (p + 8) t) buf br with ⟨e2, t3, b2, r2, it⟩
            have hd := defaultLoop_dims rl (t.length - (p + 8))
              (List.drop (p + 8) t) buf br
            rw [hrec] at hd
            have hk := findSub_close_take t p hc
            simp [defaultFilter, specSpans, hc, hrec, dimPayloads_cons_dim,
              hd, hk, spanWithDelims]
